import Mathlib

/-!
Verification of the Tinnitus Tamer core (src/tinnitus_tamer.py) against its
natural-language specification.

The development shallowly embeds the program in Lean 4:

* The `TinnitusTamer` controller (parameter fields, `playing`, `sound`,
  `tmpfile`, and the slot methods `update_*_vol`, `update_freq`,
  `update_notch_q`, `update_master_vol`, `toggle_play`, `play_sound`,
  `update_sound`, `stop_sound`) is embedded as a state type `CState` with a
  sequential event-application function, mirroring the Qt event loop, which
  delivers slot invocations one at a time on a single thread.
* Python floats are modelled by `ℚ` where the code performs only field
  arithmetic and comparisons (controller, mixer, loop builder) and by `ℝ`
  where the code uses transcendental functions (FFT-based spectral shaping,
  IIR notch design).
* numpy / scipy library calls are embedded by their documented mathematical
  definitions (`np.fft.rfft`, `np.fft.rfftfreq`, `np.fft.irfft`, `np.mean`,
  `np.std`, `np.linspace`, `.astype(np.int16)`, `scipy.signal.iirnotch`).
-/

namespace TinnitusTamer

/-! ## Controller state (fields set in `TinnitusTamer.__init__`) -/

/-- The synthesis parameters stored as mutable fields on the `TinnitusTamer`
object: six channel volumes, master volume, tinnitus frequency and notch Q
(`self.white_vol` … `self.notch_q`). -/
structure Params where
  white : ℚ
  pink : ℚ
  brown : ℚ
  wind : ℚ
  ocean : ℚ
  waterfall : ℚ
  master : ℚ
  freq : ℚ
  q : ℚ
deriving DecidableEq

/-- The live pygame `Sound` object: it carries the audio content generated by
`generate_noise` — represented at controller level by the parameter snapshot
the buffer was built from — and the playback volume set via `set_volume`. -/
structure Session where
  snapshot : Params
  volume : ℚ
deriving DecidableEq

/-- The mutable controller state of the `TinnitusTamer` object:
parameters, `self.playing`, `self.sound` (the live pygame Sound, if any),
`self.tmpfile` (the temporary WAV file handle, if any) together with whether
that file still exists on disk, and a ghost counter of how many times
`generate_noise` has run (one per `play_sound` call). -/
structure CState where
  params : Params
  playing : Bool
  sound : Option Session
  tmpfile : Option Unit
  fileExists : Bool
  regenCount : ℕ
deriving DecidableEq

/-- Observable playback-facility actions performed by `stop_sound`:
`Sound.fadeout(100)` and `os.unlink` of the temporary file. -/
inductive Act where
  | fadeout
  | unlink
deriving DecidableEq

/-- Model of `stop_sound` (lines 415–422): if a sound is live, fade it out and drop the
reference; if a temporary file handle is held and the file exists, delete it
and drop the handle.  Returns the new state together with the playback
actions performed. -/
def stopSound (s : CState) : CState × List Act :=
  let (s1, a1) :=
    match s.sound with
    | some _ => ({ s with sound := none }, [Act.fadeout])
    | none => (s, [])
  match s1.tmpfile with
  | some _ =>
      if s1.fileExists then
        ({ s1 with tmpfile := none, fileExists := false }, a1 ++ [Act.unlink])
      else (s1, a1)
  | none => (s1, a1)

/-- State part of `stop_sound`. -/
def stopSoundSt (s : CState) : CState := (stopSound s).1

/-- Model of `play_sound` (lines 383–405): stop any current sound, run `generate_noise`
with the current parameter fields (recorded as the snapshot of the new
`Session`), route the result through a temporary WAV file that is deleted
again in the `finally` block (`self.tmpfile` ends up `None`), load it into a
pygame `Sound`, set its volume to the current master volume and start looped
playback. -/
def playSound (s : CState) : CState :=
  let s1 := stopSoundSt s
  { s1 with
      sound := some ⟨s.params, s.params.master⟩
      tmpfile := none
      regenCount := s1.regenCount + 1 }

/-- Model of `update_sound` (lines 407–413): if playing, fade out the current sound and
rebuild/replay via `play_sound`; otherwise do nothing. -/
def updateSound (s : CState) : CState :=
  if s.playing then playSound s else s

/-- A Qt slider clamps any value delivered to `setValue` into `[lo, hi]`
(the ranges configured in `add_slider`: 0–100 for volumes, 1–100 for Q). -/
def sliderClamp (lo hi v : ℤ) : ℤ := max lo (min hi v)

/-- Slider position to stored volume: `value / 100.0`
(as in `update_white_vol` etc.). -/
def toVol (v : ℤ) : ℚ := (sliderClamp 0 100 v : ℚ) / 100

/-- Events delivered to the controller by the Qt event loop, one per slot
invocation.  `setFreqText t` carries the result of `float(text)` on the
frequency line-edit contents: `some v` on success (with the empty string
parsing to `some 0` via `float(text) if text else 0.0`), `none` when
`float(text)` raises `ValueError` (a non-numeric string). -/
inductive Ev where
  | setWhite (v : ℤ)
  | setPink (v : ℤ)
  | setBrown (v : ℤ)
  | setWind (v : ℤ)
  | setOcean (v : ℤ)
  | setWaterfall (v : ℤ)
  | setMaster (v : ℤ)
  | setFreqText (t : Option ℚ)
  | setNotchQ (v : ℤ)
  | togglePlay

/-- One slot invocation (lines 231–280, 371–381).  Each `update_*_vol` stores
the clamped slider value divided by 100 and calls `update_sound`;
`update_master_vol` stores the value and only adjusts the volume of the live
sound
via `set_volume` (no regeneration); `update_freq` stores the parsed frequency
and calls `update_sound`, or on `ValueError` stores `0.0` and returns without
regenerating; `update_notch_q` stores the slider value and calls
`update_sound`; `toggle_play` flips between `stop_sound` and `play_sound`. -/
def applyEv (e : Ev) (s : CState) : CState :=
  match e with
  | .setWhite v => updateSound { s with params := { s.params with white := toVol v } }
  | .setPink v => updateSound { s with params := { s.params with pink := toVol v } }
  | .setBrown v => updateSound { s with params := { s.params with brown := toVol v } }
  | .setWind v => updateSound { s with params := { s.params with wind := toVol v } }
  | .setOcean v => updateSound { s with params := { s.params with ocean := toVol v } }
  | .setWaterfall v =>
      updateSound { s with params := { s.params with waterfall := toVol v } }
  | .setMaster v =>
      { s with
          params := { s.params with master := toVol v }
          sound := s.sound.map (fun ss => { ss with volume := toVol v }) }
  | .setFreqText (some f) =>
      updateSound { s with params := { s.params with freq := f } }
  | .setFreqText none => { s with params := { s.params with freq := 0 } }
  | .setNotchQ v =>
      updateSound { s with params := { s.params with q := (sliderClamp 1 100 v : ℚ) } }
  | .togglePlay =>
      if s.playing then { stopSoundSt s with playing := false }
      else { playSound s with playing := true }

/-- Sequential processing of an event list by the Qt event loop. -/
def applyEvs (es : List Ev) (s : CState) : CState :=
  es.foldl (fun st e => applyEv e st) s

/-- All six stored channel volumes lie in `[0, 1]`. -/
def VolsIn01 (p : Params) : Prop :=
  0 ≤ p.white ∧ p.white ≤ 1 ∧ 0 ≤ p.pink ∧ p.pink ≤ 1 ∧
  0 ≤ p.brown ∧ p.brown ≤ 1 ∧ 0 ≤ p.wind ∧ p.wind ≤ 1 ∧
  0 ≤ p.ocean ∧ p.ocean ≤ 1 ∧ 0 ≤ p.waterfall ∧ p.waterfall ≤ 1

instance (p : Params) : Decidable (VolsIn01 p) := by
  unfold VolsIn01; infer_instance

/-- A concrete controller state used by witnesses: `Playing` with white volume
1, master 1, tinnitus frequency 4000 Hz, notch Q 30. -/
def ex0 : CState :=
  { params := ⟨1, 0, 0, 0, 0, 0, 1, 4000, 30⟩
    playing := true
    sound := some ⟨⟨1, 0, 0, 0, 0, 0, 1, 4000, 30⟩, 1⟩
    tmpfile := none
    fileExists := false
    regenCount := 0 }

/-! ## Mixer (`generate_noise`, lines 340–349)

The six channel signals produced by the generators are scaled by their
volumes, summed elementwise (numpy `+` on equal-length arrays, left
associated), and peak-normalized when the peak is nonzero. -/

/-- Scaling `signal * vol` (numpy array–scalar product). -/
def scaleSig (v : ℚ) (s : List ℚ) : List ℚ := s.map (fun x => x * v)

/-- numpy elementwise `+` of two equal-length arrays. -/
def addSig (a b : List ℚ) : List ℚ := List.zipWith (fun x y => x + y) a b

/-- Peak `np.abs(mix).max()` (0 on the empty list). -/
def maxAbs (l : List ℚ) : ℚ := (l.map (fun x => |x|)).foldr max 0

/-- Sum `mix = white + pink + brown + wind + ocean + waterfall` with each channel
already scaled by its volume, then `mix /= np.abs(mix).max()` when that peak
is positive (lines 347–349). -/
def mix6 (w p b wi oc wa : List ℚ) (vw vp vb vwi voc vwa : ℚ) : List ℚ :=
  let mix :=
    addSig (addSig (addSig (addSig (addSig
      (scaleSig vw w) (scaleSig vp p)) (scaleSig vb b)) (scaleSig vwi wi))
      (scaleSig voc oc)) (scaleSig vwa wa)
  if 0 < maxAbs mix then mix.map (fun x => x / maxAbs mix) else mix

/-! ## Loop builder (`generate_noise`, lines 357–368) -/

/-- Model of `np.linspace(a, b, n)`: `n` evenly spaced points from `a` to `b`
inclusive (`[a]` for `n = 1`, `[]` for `n = 0`). -/
def linspace (a b : ℚ) (n : ℕ) : List ℚ :=
  if n = 1 then [a]
  else (List.range n).map (fun (i : ℕ) => a + (b - a) * (i : ℚ) / ((n : ℚ) - 1))

/-- Truncation toward zero, as in a float→integer C cast
(`.astype(np.int16)` first truncates the float). -/
def ratTrunc (q : ℚ) : ℤ := Int.tdiv q.num q.den

/-- Wrap-around of an integer into the 16-bit signed range, the second half
of numpy `.astype(np.int16)` semantics. -/
def wrap16 (n : ℤ) : ℤ := (n + 32768) % 65536 - 32768

/-- One sample of `(loop_mix * 32767).astype(np.int16)`. -/
def toInt16 (x : ℚ) : ℤ := wrap16 (ratTrunc (x * 32767))

/-- Lines 357–368: `L = duration*fs`, `O = overlap*fs`,
`loop_mix = mix[:L]`, `next_segment = mix[L:L+O]`,
`loop_mix[-O:] = loop_mix[-O:]*fade_out + next_segment*fade_in` with linear
fades, then conversion to 16-bit PCM.  (For `0 < O ≤ L` the python slice
`[-O:]` is the last `O` elements, i.e. `drop (L - O)` of the loop body.) -/
def buildLoop (mix : List ℚ) (duration overlap fs : ℕ) : List ℤ :=
  let L := duration * fs
  let O := overlap * fs
  let body := mix.take L
  let nextSeg := (mix.drop L).take O
  let fadeOut := linspace 1 0 O
  let fadeIn := linspace 0 1 O
  let newTail :=
    List.zipWith (fun x y => x + y)
      (List.zipWith (fun x y => x * y) (body.drop (L - O)) fadeOut)
      (List.zipWith (fun x y => x * y) nextSeg fadeIn)
  (body.take (L - O) ++ newTail).map toInt16

/-! ## Notch filter stage (`generate_noise`, lines 351–355) -/

/-- The guard and normalized design frequency of lines 352–354: the filter is
designed exactly when `self.tinnitus_freq > 0`, with `w0 = freq / (fs/2)` and
quality factor `self.notch_q` passed to `scipy.signal.iirnotch` unchanged —
there is no upper clamp at Nyquist. -/
def designParams (freq q : ℚ) : Option (ℚ × ℚ) :=
  if 0 < freq then some (freq / (44100 / 2), q) else none

/-- Model of `scipy.signal.iirnotch(w0, Q)` filter coefficients
(`b = gain·[1, −2cos(πw0), 1]`, `a = [1, −2·gain·cos(πw0), 2·gain−1]` with
`gain = 1/(1+β)`, `β = (√(1−g_b²)/g_b)·tan(π·w0/(2Q))`, `g_b = 1/√2`). -/
noncomputable def iirnotch (w0 q : ℝ) : (ℝ × ℝ × ℝ) × (ℝ × ℝ × ℝ) :=
  let w := w0 * Real.pi
  let bw := w0 / q * Real.pi
  let gb : ℝ := 1 / Real.sqrt 2
  let beta := (Real.sqrt (1 - gb ^ 2) / gb) * Real.tan (bw / 2)
  let gain := 1 / (1 + beta)
  ((gain, -2 * gain * Real.cos w, gain), (1, -2 * gain * Real.cos w, 2 * gain - 1))

/-- A second-order IIR difference equation
`y[n] = b0·x[n] + b1·x[n−1] + b2·x[n−2] − a1·y[n−1] − a2·y[n−2]` with zero
initial conditions (`scipy.signal.lfilter` for 3-tap `b`, `a` with
`a[0] = 1`). -/
noncomputable def lfilter2 (b0 b1 b2 a1 a2 : ℝ) (x : List ℝ) : List ℝ :=
  (x.foldl
    (fun acc xn =>
      match acc with
      | (ys, x1, x2, y1, _y2) =>
        let yn := b0 * xn + b1 * x1 + b2 * x2 - a1 * y1 - a2 * _y2
        (ys ++ [yn], xn, x1, yn, y1))
    (([] : List ℝ), 0, 0, 0, 0)).1

/-- Zero-phase forward–backward filtering (`scipy.signal.filtfilt`): filter,
reverse, filter again, reverse.  The odd-extension edge padding and
steady-state initial conditions of scipy are not modelled; no theorem below
depends on the filtered sample values. -/
noncomputable def filtfiltFB (b0 b1 b2 a1 a2 : ℝ) (x : List ℝ) : List ℝ :=
  (lfilter2 b0 b1 b2 a1 a2 (lfilter2 b0 b1 b2 a1 a2 x).reverse).reverse

/-- Lines 351–355: apply the notch only when `self.tinnitus_freq > 0`;
otherwise the mixed signal passes through unchanged. -/
noncomputable def notchStage (freq q : ℝ) (mix : List ℝ) : List ℝ :=
  if 0 < freq then
    let w0 := freq / (44100 / 2)
    let ba := iirnotch w0 q
    filtfiltFB ba.1.1 ba.1.2.1 ba.1.2.2 ba.2.2.1 ba.2.2.2 mix
  else mix

/-! ## Spectral noise generator (`generate_colored`, lines 292–304)

Python float arithmetic is modelled by exact real arithmetic; the numpy FFT
routines are embedded by their defining formulas. -/

/-- Model of `np.mean`. -/
noncomputable def mean (l : List ℝ) : ℝ := l.sum / l.length

/-- Model of `np.var` (population variance, `ddof = 0`). -/
noncomputable def variance (l : List ℝ) : ℝ :=
  ((l.map (fun x => (x - mean l) ^ 2)).sum) / l.length

/-- Model of `np.std` (population standard deviation). -/
noncomputable def std (l : List ℝ) : ℝ := Real.sqrt (variance l)

/-- Number of frequency bins of a real FFT of `N` samples: `N // 2 + 1`. -/
def numBins (N : ℕ) : ℕ := N / 2 + 1

/-- Model of `np.fft.rfft`: bin `k` is `Σₙ x[n]·exp(−2πi·k·n/N)` for
`k = 0 … N//2`. -/
noncomputable def npRfft (x : List ℝ) : List ℂ :=
  (List.range (numBins x.length)).map (fun (k : ℕ) =>
    ∑ n ∈ Finset.range x.length,
      (x.getD n 0 : ℂ) *
        Complex.exp (-2 * Real.pi * Complex.I * (k : ℂ) * (n : ℂ) / (x.length : ℂ)))

/-- Model of `np.fft.rfftfreq(N, 1/fs)`: bin `k` maps to frequency `k·fs/N`. -/
noncomputable def npRfftfreq (N : ℕ) (fs : ℝ) : List ℝ :=
  (List.range (numBins N)).map (fun (k : ℕ) => (k : ℝ) * fs / (N : ℝ))

/-- Hermitian extension of a half spectrum to `M` bins, as assumed by
`np.fft.irfft` (`C[k] = c[k]` for stored bins, `C[k] = conj(c[M−k])`
above). -/
noncomputable def hermBin (c : List ℂ) (M k : ℕ) : ℂ :=
  if k < c.length then c.getD k 0 else (starRingEnd ℂ) (c.getD (M - k) 0)

/-- Model of `np.fft.irfft` with its default output length `M = 2·(len(c) − 1)`:
the real part of the inverse DFT of the Hermitian extension. -/
noncomputable def npIrfft (c : List ℂ) : List ℝ :=
  let M := 2 * (c.length - 1)
  (List.range M).map (fun (n : ℕ) =>
    ((1 / (M : ℂ)) * ∑ k ∈ Finset.range M,
      hermBin c M k *
        Complex.exp (2 * Real.pi * Complex.I * (k : ℂ) * (n : ℂ) / (M : ℂ))).re)

/-- Lines 293–299 of `generate_colored`: FFT the white input, substitute
`1e-10` for the zero frequency, scale each bin by `1/f^(β/2)`, inverse FFT. -/
noncomputable def shapedSignal (beta N : ℕ) (fs : ℝ) (white : List ℝ) : List ℝ :=
  let fft_white := npRfft white
  let freqs := (npRfftfreq N fs).map (fun f => if f = 0 then 1e-10 else f)
  let magnitude := freqs.map (fun f => 1 / Real.rpow f ((beta : ℝ) / 2))
  let colored_fft := List.zipWith (fun c (m : ℝ) => c * (m : ℂ)) fft_white magnitude
  npIrfft colored_fft

/-- Line 300: `colored -= np.mean(colored)`. -/
noncomputable def centered (l : List ℝ) : List ℝ := l.map (fun x => x - mean l)

/-- Lines 301–303: divide by the standard deviation only when it exceeds the
`1e-10` guard. -/
noncomputable def normalizeGuard (y : List ℝ) : List ℝ :=
  if 1e-10 < std y then y.map (fun x => x / std y) else y

/-- Model of `generate_colored(beta, N, fs)` applied to the white-noise draw
`white = np.random.randn(N)` (the random input is a parameter of the
embedding). -/
noncomputable def generate_colored (beta N : ℕ) (fs : ℝ) (white : List ℝ) : List ℝ :=
  normalizeGuard (centered (shapedSignal beta N fs white))

/-! ## Projection lemmas for the controller transitions -/

theorem stopSoundSt_params (s : CState) : (stopSoundSt s).params = s.params := by
  rcases s with ⟨p, pl, so, tm, fe, rc⟩
  cases so <;> cases tm <;> cases fe <;> simp [stopSoundSt, stopSound]

theorem stopSoundSt_playing (s : CState) : (stopSoundSt s).playing = s.playing := by
  rcases s with ⟨p, pl, so, tm, fe, rc⟩
  cases so <;> cases tm <;> cases fe <;> simp [stopSoundSt, stopSound]

theorem stopSoundSt_regenCount (s : CState) :
    (stopSoundSt s).regenCount = s.regenCount := by
  rcases s with ⟨p, pl, so, tm, fe, rc⟩
  cases so <;> cases tm <;> cases fe <;> simp [stopSoundSt, stopSound]

theorem stopSoundSt_sound (s : CState) : (stopSoundSt s).sound = none := by
  rcases s with ⟨p, pl, so, tm, fe, rc⟩
  cases so <;> cases tm <;> cases fe <;> simp [stopSoundSt, stopSound]

theorem playSound_params (s : CState) : (playSound s).params = s.params := by
  simp [playSound, stopSoundSt_params]

theorem playSound_playing (s : CState) : (playSound s).playing = s.playing := by
  simp [playSound, stopSoundSt_playing]

theorem playSound_regenCount (s : CState) :
    (playSound s).regenCount = s.regenCount + 1 := by
  simp [playSound, stopSoundSt_regenCount]

theorem playSound_sound (s : CState) :
    (playSound s).sound = some ⟨s.params, s.params.master⟩ := by
  simp [playSound]

/-- Lemma: `applyEv` updates the stored parameter fields exactly as the slot bodies
write them (regeneration never rewrites parameters). -/
theorem applyEv_params (e : Ev) (s : CState) :
    (applyEv e s).params =
      match e with
      | .setWhite v => { s.params with white := toVol v }
      | .setPink v => { s.params with pink := toVol v }
      | .setBrown v => { s.params with brown := toVol v }
      | .setWind v => { s.params with wind := toVol v }
      | .setOcean v => { s.params with ocean := toVol v }
      | .setWaterfall v => { s.params with waterfall := toVol v }
      | .setMaster v => { s.params with master := toVol v }
      | .setFreqText (some f) => { s.params with freq := f }
      | .setFreqText none => { s.params with freq := 0 }
      | .setNotchQ v => { s.params with q := (sliderClamp 1 100 v : ℚ) }
      | .togglePlay => s.params := by
  rcases e with v | v | v | v | v | v | v | t | v | _
  case setFreqText =>
    rcases t with _ | f
    · simp [applyEv, updateSound, playSound_params, stopSoundSt_params]
    · simp only [applyEv, updateSound]
      split <;> simp [playSound_params]
  case togglePlay =>
    simp only [applyEv]
    split <;> simp [playSound_params, stopSoundSt_params]
  all_goals
    simp [applyEv, updateSound] <;> split <;> simp [playSound_params]

theorem toVol_mem01 (v : ℤ) : 0 ≤ toVol v ∧ toVol v ≤ 1 := by
  unfold toVol sliderClamp
  constructor
  · positivity
  · rw [div_le_one (by norm_num)]
    have h : (max 0 (min 100 v) : ℤ) ≤ 100 := by
      apply max_le
      · omega
      · omega
    exact_mod_cast le_trans (by exact_mod_cast h) (by norm_num)

/-! ## Claim theorems about the controller -/

/-- C1 (counterexample): from the `Playing` state with frequency 4000 Hz and
Q 30, the event sequence `setTinnitusFrequency(0)` then `setNotchQ(40)` runs
`generate_noise` twice, not exactly once as the claim states: each slot
invocation synchronously completes a full regeneration before the next event
is processed. -/
theorem C1_counterexample :
    (applyEvs [Ev.setFreqText (some 0), Ev.setNotchQ 40] ex0).regenCount = 2 ∧
      (applyEvs [Ev.setFreqText (some 0), Ev.setNotchQ 40] ex0).regenCount ≠ 1 := by
  constructor <;> decide

/-- C1 (amended): in the synchronous controller each parameter change while
`Playing` triggers exactly one full regeneration of its own, so the scenario
`setTinnitusFrequency(0)` followed by `setNotchQ(40)` performs two
regenerations; no regeneration is ever pending when an event is processed
(so stale regenerations are never queued), the state stays `Playing`, and the
final loop buffer is built from the latest parameter snapshot
(frequency 0, Q 40, all other parameters unchanged). -/
theorem C1_sequential_regeneration (s : CState) (h : s.playing = true) :
    (applyEvs [Ev.setFreqText (some 0), Ev.setNotchQ 40] s).regenCount
        = s.regenCount + 2 ∧
      (applyEvs [Ev.setFreqText (some 0), Ev.setNotchQ 40] s).sound
        = some ⟨{ s.params with freq := 0, q := 40 }, s.params.master⟩ ∧
      (applyEvs [Ev.setFreqText (some 0), Ev.setNotchQ 40] s).playing = true := by
  have h40 : ((sliderClamp 1 100 40 : ℤ) : ℚ) = 40 := by decide
  simp only [applyEvs, List.foldl, applyEv, updateSound]
  rw [if_pos h]
  have hp1 : (playSound { s with params := { s.params with freq := 0 } }).playing
      = true := by rw [playSound_playing]; exact h
  rw [if_pos hp1]
  refine ⟨?_, ?_, ?_⟩
  · rw [playSound_regenCount, playSound_regenCount]
  · rw [playSound_sound, playSound_params, h40]
  · rw [playSound_playing, playSound_playing]; exact h

/-- C1 (witness): the amended statement instantiated at the concrete
`Playing` state `ex0`. -/
theorem C1_sequential_regeneration_witness :
    (applyEvs [Ev.setFreqText (some 0), Ev.setNotchQ 40] ex0).regenCount
        = ex0.regenCount + 2 ∧
      (applyEvs [Ev.setFreqText (some 0), Ev.setNotchQ 40] ex0).sound
        = some ⟨{ ex0.params with freq := 0, q := 40 }, ex0.params.master⟩ ∧
      (applyEvs [Ev.setFreqText (some 0), Ev.setNotchQ 40] ex0).playing = true :=
  C1_sequential_regeneration ex0 rfl

/-- C4: a slider event carrying 150 (the analogue of
`setChannelVolume(White, 1.5)`: Qt clamps the slider to its 0–100 range)
stores white volume 1.0; a notch-Q event carrying −5 is clamped to the
minimum slider value 1, the minimum valid Q; and every parameter-update
event preserves the invariant that all six stored channel volumes lie in
`[0, 1]`. -/
theorem C4_parameter_clamping :
    (∀ s : CState, (applyEv (Ev.setWhite 150) s).params.white = 1) ∧
      (∀ s : CState, (applyEv (Ev.setNotchQ (-5)) s).params.q = 1) ∧
      (∀ (e : Ev) (s : CState), VolsIn01 s.params → VolsIn01 (applyEv e s).params) := by
  refine ⟨fun s => ?_, fun s => ?_, fun e s hs => ?_⟩
  · have ha : (applyEv (Ev.setWhite 150) s).params
        = { s.params with white := toVol 150 } := applyEv_params _ s
    rw [ha]
    show toVol 150 = 1
    have hc : sliderClamp 0 100 150 = 100 := by decide
    rw [toVol, hc]; norm_num
  · have ha : (applyEv (Ev.setNotchQ (-5)) s).params
        = { s.params with q := (sliderClamp 1 100 (-5) : ℤ) } := applyEv_params _ s
    rw [ha]
    show ((sliderClamp 1 100 (-5) : ℤ) : ℚ) = 1
    have hc : sliderClamp 1 100 (-5) = 1 := by decide
    rw [hc]; norm_num
  · obtain ⟨h1, h2, h3, h4, h5, h6, h7, h8, h9, h10, h11, h12⟩ := hs
    rcases e with v | v | v | v | v | v | v | t | v | _
    · exact (applyEv_params (Ev.setWhite v) s) ▸
        ⟨(toVol_mem01 v).1, (toVol_mem01 v).2, h3, h4, h5, h6, h7, h8, h9, h10, h11, h12⟩
    · exact (applyEv_params (Ev.setPink v) s) ▸
        ⟨h1, h2, (toVol_mem01 v).1, (toVol_mem01 v).2, h5, h6, h7, h8, h9, h10, h11, h12⟩
    · exact (applyEv_params (Ev.setBrown v) s) ▸
        ⟨h1, h2, h3, h4, (toVol_mem01 v).1, (toVol_mem01 v).2, h7, h8, h9, h10, h11, h12⟩
    · exact (applyEv_params (Ev.setWind v) s) ▸
        ⟨h1, h2, h3, h4, h5, h6, (toVol_mem01 v).1, (toVol_mem01 v).2, h9, h10, h11, h12⟩
    · exact (applyEv_params (Ev.setOcean v) s) ▸
        ⟨h1, h2, h3, h4, h5, h6, h7, h8, (toVol_mem01 v).1, (toVol_mem01 v).2, h11, h12⟩
    · exact (applyEv_params (Ev.setWaterfall v) s) ▸
        ⟨h1, h2, h3, h4, h5, h6, h7, h8, h9, h10, (toVol_mem01 v).1, (toVol_mem01 v).2⟩
    · exact (applyEv_params (Ev.setMaster v) s) ▸
        ⟨h1, h2, h3, h4, h5, h6, h7, h8, h9, h10, h11, h12⟩
    · rcases t with _ | f
      · exact (applyEv_params (Ev.setFreqText none) s) ▸
          ⟨h1, h2, h3, h4, h5, h6, h7, h8, h9, h10, h11, h12⟩
      · exact (applyEv_params (Ev.setFreqText (some f)) s) ▸
          ⟨h1, h2, h3, h4, h5, h6, h7, h8, h9, h10, h11, h12⟩
    · exact (applyEv_params (Ev.setNotchQ v) s) ▸
        ⟨h1, h2, h3, h4, h5, h6, h7, h8, h9, h10, h11, h12⟩
    · exact (applyEv_params Ev.togglePlay s) ▸
        ⟨h1, h2, h3, h4, h5, h6, h7, h8, h9, h10, h11, h12⟩

/-- C4 (witness): the invariant-preservation part applied at a concrete state
with all volumes in range, plus both concrete clamping facts. -/
theorem C4_parameter_clamping_witness :
    (applyEv (Ev.setWhite 150) ex0).params.white = 1 ∧
      (applyEv (Ev.setNotchQ (-5)) ex0).params.q = 1 ∧
      VolsIn01 (applyEv (Ev.setPink 42) ex0).params :=
  ⟨C4_parameter_clamping.1 ex0, C4_parameter_clamping.2.1 ex0,
    C4_parameter_clamping.2.2 (Ev.setPink 42) ex0 (by decide)⟩

/-- C8: when `float(text)` raises `ValueError` (a non-numeric frequency
string), `update_freq` stores tinnitus frequency 0 and changes nothing else —
in particular no regeneration runs and the controller state survives intact
(the handler swallows the exception instead of letting it terminate the
process). -/
theorem C8_invalid_freq_disabled (s : CState) :
    applyEv (Ev.setFreqText none) s
        = { s with params := { s.params with freq := 0 } } ∧
      (applyEv (Ev.setFreqText none) s).regenCount = s.regenCount ∧
      (applyEv (Ev.setFreqText none) s).params.freq = 0 := by
  exact ⟨rfl, rfl, rfl⟩

/-- C9: a master-volume event is a fast path: it stores the new master volume
and adjusts the volume of the live sound via `set_volume`, while the loop
buffer content (the snapshot it was generated from), the regeneration count,
the playing flag and every other stored parameter are unchanged. -/
theorem C9_master_volume_fast_path (v : ℤ) (s : CState) :
    (applyEv (Ev.setMaster v) s).regenCount = s.regenCount ∧
      (applyEv (Ev.setMaster v) s).sound.map Session.snapshot
        = s.sound.map Session.snapshot ∧
      (applyEv (Ev.setMaster v) s).sound.map Session.volume
        = s.sound.map (fun _ => toVol v) ∧
      (applyEv (Ev.setMaster v) s).playing = s.playing ∧
      (applyEv (Ev.setMaster v) s).params
        = { s.params with master := toVol v } := by
  rcases s with ⟨p, pl, so, tm, fe, rc⟩
  cases so <;> simp [applyEv]

/-- C10: `stop_sound` is idempotent: with no live sound and no temporary file
it performs no playback action and leaves the state untouched, and a second
`stop_sound` right after a first one changes nothing and performs no
action. -/
theorem C10_stop_idempotent (s : CState) :
    (s.sound = none → s.tmpfile = none → stopSound s = (s, [])) ∧
      stopSoundSt (stopSoundSt s) = stopSoundSt s ∧
      (stopSound (stopSoundSt s)).2 = [] := by
  rcases s with ⟨p, pl, so, tm, fe, rc⟩
  cases so <;> cases tm <;> cases fe <;>
    simp [stopSound, stopSoundSt]

/-- C10 (witness): the no-op part of the statement at a concrete idle state. -/
theorem C10_stop_idempotent_witness :
    stopSound { ex0 with sound := none, tmpfile := none }
      = ({ ex0 with sound := none, tmpfile := none }, []) :=
  (C10_stop_idempotent { ex0 with sound := none, tmpfile := none }).1 rfl rfl

/-! ## Mixer lemmas and claim C5 -/

theorem maxAbs_cons (a : ℚ) (l : List ℚ) : maxAbs (a :: l) = max |a| (maxAbs l) := rfl

theorem abs_le_maxAbs {x : ℚ} {l : List ℚ} (h : x ∈ l) : |x| ≤ maxAbs l := by
  induction l with
  | nil => simp at h
  | cons a t ih =>
    rw [maxAbs_cons]
    rcases List.mem_cons.mp h with rfl | h2
    · exact le_max_left _ _
    · exact le_trans (ih h2) (le_max_right _ _)

theorem maxAbs_nonneg (l : List ℚ) : 0 ≤ maxAbs l := by
  induction l with
  | nil => exact le_refl 0
  | cons a t ih => rw [maxAbs_cons]; exact le_trans ih (le_max_right _ _)

theorem scaleSig_zero_mem {x : ℚ} {s : List ℚ} (h : x ∈ scaleSig 0 s) : x = 0 := by
  rcases List.mem_map.mp h with ⟨y, _, rfl⟩
  exact mul_zero y

theorem addSig_zero_mem {a b : List ℚ} (ha : ∀ x ∈ a, x = 0) (hb : ∀ x ∈ b, x = 0) :
    ∀ x ∈ addSig a b, x = 0 := by
  induction a generalizing b with
  | nil => intro x hx; simp [addSig] at hx
  | cons a0 t ih =>
    intro x hx
    cases b with
    | nil => simp [addSig] at hx
    | cons b0 u =>
      rcases List.mem_cons.mp hx with rfl | h2
      · show a0 + b0 = 0
        rw [ha a0 (List.mem_cons_self a0 t), hb b0 (List.mem_cons_self b0 u), add_zero]
      · exact ih (fun y hy => ha y (List.mem_cons_of_mem a0 hy))
          (fun y hy => hb y (List.mem_cons_of_mem b0 hy)) x h2

theorem maxAbs_eq_zero {l : List ℚ} (h : ∀ x ∈ l, x = 0) : maxAbs l = 0 := by
  induction l with
  | nil => rfl
  | cons a t ih =>
    rw [maxAbs_cons, h a (List.mem_cons_self a t), abs_zero,
      ih (fun y hy => h y (List.mem_cons_of_mem a hy))]
    exact max_self 0

/-- C5: every sample of the peak-normalized mix has absolute value at most 1
(for every combination of channel signals and volumes), and with all six
channel volumes zero the mixed output is identically zero (the nonzero-peak
check skips the division). -/
theorem C5_mixer_normalized (w p b wi oc wa : List ℚ) (vw vp vb vwi voc vwa : ℚ) :
    (∀ x ∈ mix6 w p b wi oc wa vw vp vb vwi voc vwa, |x| ≤ 1) ∧
      (∀ x ∈ mix6 w p b wi oc wa 0 0 0 0 0 0, x = 0) := by
  constructor
  · intro x hx
    simp only [mix6] at hx
    set M := addSig (addSig (addSig (addSig (addSig
      (scaleSig vw w) (scaleSig vp p)) (scaleSig vb b)) (scaleSig vwi wi))
      (scaleSig voc oc)) (scaleSig vwa wa) with hM
    by_cases hpos : 0 < maxAbs M
    · rw [if_pos hpos] at hx
      rcases List.mem_map.mp hx with ⟨y, hy, rfl⟩
      rw [abs_div, abs_of_pos hpos, div_le_one hpos]
      exact abs_le_maxAbs hy
    · rw [if_neg hpos] at hx
      have h0 : maxAbs M = 0 := le_antisymm (not_lt.mp hpos) (maxAbs_nonneg M)
      have := abs_le_maxAbs hx
      rw [h0] at this
      exact le_trans this (by norm_num)
  · intro x hx
    simp only [mix6] at hx
    have hz : ∀ y ∈ addSig (addSig (addSig (addSig (addSig
        (scaleSig (0 : ℚ) w) (scaleSig 0 p)) (scaleSig 0 b)) (scaleSig 0 wi))
        (scaleSig 0 oc)) (scaleSig 0 wa), y = 0 := by
      refine addSig_zero_mem (addSig_zero_mem (addSig_zero_mem (addSig_zero_mem
        (addSig_zero_mem ?_ ?_) ?_) ?_) ?_) ?_ <;>
        exact fun y hy => scaleSig_zero_mem hy
    rw [maxAbs_eq_zero hz] at hx
    norm_num at hx
    exact hz x hx

/-- C5 (witness): the bound and the all-zero case instantiated at concrete
channel signals `[1]` with all volumes zero, whose mix contains the sample
0. -/
theorem C5_mixer_normalized_witness : |(0 : ℚ)| ≤ 1 ∧ (0 : ℚ) = 0 := by
  have h : (0 : ℚ) ∈ mix6 [1] [1] [1] [1] [1] [1] 0 0 0 0 0 0 := by
    simp [mix6, scaleSig, addSig, maxAbs]
  exact ⟨(C5_mixer_normalized [1] [1] [1] [1] [1] [1] 0 0 0 0 0 0).1 0 h,
    (C5_mixer_normalized [1] [1] [1] [1] [1] [1] 0 0 0 0 0 0).2 0 h⟩

/-! ## Loop-builder lemmas and claim C6 -/

theorem getElem?_eq_some_getD {α : Type} (l : List α) (d : α) (i : ℕ)
    (h : i < l.length) : l[i]? = some (l.getD i d) := by
  rw [List.getD_eq_getElem?_getD, List.getElem?_eq_getElem h]
  rfl

theorem linspace_length (a b : ℚ) (n : ℕ) : (linspace a b n).length = n := by
  unfold linspace
  split
  · next h1 => rw [h1]; rfl
  · simp

theorem linspace_getElem? (a b : ℚ) (n i : ℕ) (h : i < n) :
    (linspace a b n)[i]? = some (a + (b - a) * i / ((n : ℚ) - 1)) := by
  unfold linspace
  split
  · next h1 =>
    subst h1
    have hi0 : i = 0 := by omega
    subst hi0
    norm_num
  · rw [List.getElem?_map, List.getElem?_range h]
    rfl

theorem ratTrunc_bound (q : ℚ) (h : |q| ≤ 32767) :
    -32767 ≤ ratTrunc q ∧ ratTrunc q ≤ 32767 := by
  have hden : (0 : ℤ) < (q.den : ℤ) := by exact_mod_cast q.pos
  have hdenQ : (0 : ℚ) < (q.den : ℚ) := by exact_mod_cast hden
  have h1 : (q.num : ℚ) = q * (q.den : ℚ) :=
    (div_eq_iff (ne_of_gt hdenQ)).mp (Rat.num_div_den q)
  have hnumQ : |(q.num : ℚ)| ≤ 32767 * (q.den : ℚ) := by
    rw [h1, abs_mul, abs_of_pos hdenQ]
    exact mul_le_mul_of_nonneg_right h (le_of_lt hdenQ)
  have hnum : |q.num| ≤ 32767 * (q.den : ℤ) := by exact_mod_cast hnumQ
  unfold ratTrunc
  rcases le_or_lt 0 q.num with hn | hn
  · rw [Int.tdiv_eq_ediv hn (le_of_lt hden)]
    constructor
    · exact le_trans (by norm_num) (Int.ediv_nonneg hn (le_of_lt hden))
    · have h2 : q.num ≤ 32767 * (q.den : ℤ) := by rwa [abs_of_nonneg hn] at hnum
      calc q.num / (q.den : ℤ) ≤ 32767 * (q.den : ℤ) / (q.den : ℤ) :=
            Int.ediv_le_ediv hden h2
        _ = 32767 := Int.mul_ediv_cancel _ (ne_of_gt hden)
  · have hrw : q.num.tdiv (q.den : ℤ) = -((-q.num).tdiv (q.den : ℤ)) := by
      rw [Int.neg_tdiv, neg_neg]
    rw [hrw, Int.tdiv_eq_ediv (by omega) (le_of_lt hden)]
    have h2 : -q.num ≤ 32767 * (q.den : ℤ) := by rwa [abs_of_neg hn] at hnum
    have hpos : 0 ≤ -q.num / (q.den : ℤ) :=
      Int.ediv_nonneg (by omega) (le_of_lt hden)
    have hle : -q.num / (q.den : ℤ) ≤ 32767 := by
      calc -q.num / (q.den : ℤ) ≤ 32767 * (q.den : ℤ) / (q.den : ℤ) :=
            Int.ediv_le_ediv hden h2
        _ = 32767 := Int.mul_ediv_cancel _ (ne_of_gt hden)
    omega

theorem wrap16_eq_self {t : ℤ} (h1 : -32768 ≤ t) (h2 : t ≤ 32767) :
    wrap16 t = t := by
  unfold wrap16
  omega

/-- C6: for an input of length `(duration+overlap)·fs` the loop builder
returns exactly `duration·fs` PCM samples; the first
`duration·fs − overlap·fs` of them are the converted input prefix; the final
`overlap·fs` are the loop-body tail scaled by the linear fade-out `1 − j/(O−1)`
plus the continuation segment scaled by the complementary fade-in `j/(O−1)`,
converted; and on samples in `[−1, 1]` the conversion is exactly
multiplication by 32767 followed by truncation toward zero. -/
theorem C6_loop_builder (mix : List ℚ) (d o fs : ℕ)
    (hlen : mix.length = (d + o) * fs) (hof : 0 < o * fs) (hod : o ≤ d) :
    (buildLoop mix d o fs).length = d * fs ∧
      (∀ i, i < d * fs - o * fs →
        (buildLoop mix d o fs).getD i 0 = toInt16 (mix.getD i 0)) ∧
      (∀ j, j < o * fs →
        (buildLoop mix d o fs).getD (d * fs - o * fs + j) 0
          = toInt16 (mix.getD (d * fs - o * fs + j) 0
                * (1 - (j : ℚ) / (((o * fs : ℕ) : ℚ) - 1))
              + mix.getD (d * fs + j) 0 * ((j : ℚ) / (((o * fs : ℕ) : ℚ) - 1)))) ∧
      (∀ x : ℚ, |x| ≤ 1 → toInt16 x = ratTrunc (x * 32767)) := by
  have hOL : o * fs ≤ d * fs := Nat.mul_le_mul_right fs hod
  have hlen' : mix.length = d * fs + o * fs := by rw [hlen, Nat.add_mul]
  have htake : ((mix.take (d * fs)).take (d * fs - o * fs)).length
      = d * fs - o * fs := by
    rw [List.length_take, List.length_take, hlen']
    omega
  refine ⟨?_, ?_, ?_, ?_⟩
  · simp only [buildLoop, List.length_map, List.length_append, List.length_take,
      List.length_drop, List.length_zipWith, linspace_length, hlen']
    omega
  · intro i hi
    suffices hs : (buildLoop mix d o fs)[i]? = some (toInt16 (mix.getD i 0)) by
      rw [List.getD_eq_getElem?_getD, hs, Option.getD_some]
    simp only [buildLoop]
    rw [List.getElem?_map,
      List.getElem?_append_left (by rw [htake]; exact hi),
      List.getElem?_take_of_lt hi,
      List.getElem?_take_of_lt (by omega : i < d * fs),
      getElem?_eq_some_getD mix 0 i (by omega)]
    rfl
  · intro j hj
    have hjlenL : d * fs - o * fs + j < d * fs := by omega
    have hmix1 : d * fs - o * fs + j < mix.length := by omega
    have hmix2 : d * fs + j < mix.length := by omega
    have hfo : (1 : ℚ) + (0 - 1) * (j : ℚ) / (((o * fs : ℕ) : ℚ) - 1)
        = 1 - (j : ℚ) / (((o * fs : ℕ) : ℚ) - 1) := by ring
    have hfi : (0 : ℚ) + (1 - 0) * (j : ℚ) / (((o * fs : ℕ) : ℚ) - 1)
        = (j : ℚ) / (((o * fs : ℕ) : ℚ) - 1) := by ring
    have hA : (List.zipWith (fun x y => x * y)
        ((mix.take (d * fs)).drop (d * fs - o * fs)) (linspace 1 0 (o * fs)))[j]?
        = some (mix.getD (d * fs - o * fs + j) 0
            * (1 - (j : ℚ) / (((o * fs : ℕ) : ℚ) - 1))) := by
      rw [List.getElem?_zipWith, List.getElem?_drop,
        List.getElem?_take_of_lt hjlenL,
        getElem?_eq_some_getD mix 0 _ hmix1,
        linspace_getElem? 1 0 (o * fs) j hj, hfo]
    have hB : (List.zipWith (fun x y => x * y)
        ((mix.drop (d * fs)).take (o * fs)) (linspace 0 1 (o * fs)))[j]?
        = some (mix.getD (d * fs + j) 0
            * ((j : ℚ) / (((o * fs : ℕ) : ℚ) - 1))) := by
      rw [List.getElem?_zipWith, List.getElem?_take_of_lt hj,
        List.getElem?_drop,
        getElem?_eq_some_getD mix 0 _ hmix2,
        linspace_getElem? 0 1 (o * fs) j hj, hfi]
    suffices hs : (buildLoop mix d o fs)[d * fs - o * fs + j]?
        = some (toInt16 (mix.getD (d * fs - o * fs + j) 0
              * (1 - (j : ℚ) / (((o * fs : ℕ) : ℚ) - 1))
            + mix.getD (d * fs + j) 0
              * ((j : ℚ) / (((o * fs : ℕ) : ℚ) - 1)))) by
      rw [List.getD_eq_getElem?_getD, hs, Option.getD_some]
    simp only [buildLoop]
    rw [List.getElem?_map,
      List.getElem?_append_right (by rw [htake]; omega),
      htake]
    have hidx : d * fs - o * fs + j - (d * fs - o * fs) = j := by omega
    rw [hidx, List.getElem?_zipWith, hA, hB]
    rfl
  · intro x hx
    have hq : |x * 32767| ≤ 32767 := by
      rw [abs_mul]
      calc |x| * |(32767 : ℚ)| ≤ 1 * |(32767 : ℚ)| :=
            mul_le_mul_of_nonneg_right hx (abs_nonneg _)
        _ = 32767 := by norm_num
    have hb := ratTrunc_bound (x * 32767) hq
    unfold toInt16
    exact wrap16_eq_self (by omega) (by omega)

/-- C6 (witness): the statement applied to a concrete 3-sample input with
duration 2, overlap 1, sample rate 1. -/
theorem C6_loop_builder_witness :
    (buildLoop [1, 0, -1] 2 1 1).length = 2 * 1 ∧
      (buildLoop [1, 0, -1] 2 1 1).getD 0 0
        = toInt16 (([1, 0, -1] : List ℚ).getD 0 0) ∧
      (buildLoop [1, 0, -1] 2 1 1).getD (2 * 1 - 1 * 1 + 0) 0
        = toInt16 (([1, 0, -1] : List ℚ).getD (2 * 1 - 1 * 1 + 0) 0
              * (1 - ((0 : ℕ) : ℚ) / (((1 * 1 : ℕ) : ℚ) - 1))
            + ([1, 0, -1] : List ℚ).getD (2 * 1 + 0) 0
              * (((0 : ℕ) : ℚ) / (((1 * 1 : ℕ) : ℚ) - 1))) ∧
      toInt16 1 = ratTrunc ((1 : ℚ) * 32767) := by
  have ht := C6_loop_builder [1, 0, -1] 2 1 1 rfl (by decide) (by decide)
  exact ⟨ht.1, ht.2.1 0 (by decide), ht.2.2.1 0 (by decide),
    ht.2.2.2 1 (by simp)⟩

/-! ## Notch filter stage: claims C3 and C7 -/

/-- C3 (code evaluated at the failing input): at tinnitus frequency 30000 Hz —
above the 22050 Hz Nyquist limit — the only guard in the code (`freq > 0`)
passes, so `iirnotch` filter design is invoked, and the normalized design
frequency `30000 / (44100/2)` it receives is at least 1, outside the valid
open domain `(0, 1)`.  The rejection or clamping the claim describes does not
exist in the code. -/
theorem C3_nyquist_unguarded :
    designParams 30000 30 = some (30000 / (44100 / 2), 30) ∧
      1 ≤ (30000 : ℚ) / (44100 / 2) := by
  constructor
  · unfold designParams
    norm_num
  · norm_num

/-- C7: when the tinnitus target frequency is not positive the notch stage is
the identity on the mixed signal, and no filter design parameters are
produced. -/
theorem C7_notch_noop (freq q : ℝ) (fq qq : ℚ) (mix : List ℝ)
    (h : freq ≤ 0) (hq : fq ≤ 0) :
    notchStage freq q mix = mix ∧ designParams fq qq = none := by
  constructor
  · unfold notchStage
    rw [if_neg (not_lt.mpr h)]
  · unfold designParams
    rw [if_neg (not_lt.mpr hq)]

/-- C7 (witness): the no-op at frequency 0 (the disabled state) with Q 30 on
the one-sample signal `[1]`. -/
theorem C7_notch_noop_witness :
    notchStage 0 30 [1] = [1] ∧ designParams 0 30 = none :=
  C7_notch_noop 0 30 0 30 [1] le_rfl le_rfl

/-! ## Spectral generator lemmas and claim C2 -/

theorem npRfft_length (x : List ℝ) : (npRfft x).length = numBins x.length := by
  simp [npRfft]

theorem npRfftfreq_length (N : ℕ) (fs : ℝ) :
    (npRfftfreq N fs).length = numBins N := by
  simp [npRfftfreq]

theorem npIrfft_length (c : List ℂ) : (npIrfft c).length = 2 * (c.length - 1) := by
  simp [npIrfft]

theorem shapedSignal_length (beta N : ℕ) (fs : ℝ) (white : List ℝ)
    (h : white.length = N) :
    (shapedSignal beta N fs white).length = 2 * (numBins N - 1) := by
  simp [shapedSignal, npIrfft_length, List.length_zipWith, npRfft_length,
    npRfftfreq_length, h]

theorem centered_length (l : List ℝ) : (centered l).length = l.length := by
  simp [centered]

theorem normalizeGuard_length (y : List ℝ) :
    (normalizeGuard y).length = y.length := by
  unfold normalizeGuard
  split <;> simp

theorem generate_colored_length (beta N : ℕ) (fs : ℝ) (white : List ℝ)
    (h : white.length = N) :
    (generate_colored beta N fs white).length = 2 * (numBins N - 1) := by
  rw [generate_colored, normalizeGuard_length, centered_length,
    shapedSignal_length beta N fs white h]

theorem list_sum_map_sub (l : List ℝ) (c : ℝ) :
    (l.map (fun x => x - c)).sum = l.sum - l.length * c := by
  induction l with
  | nil => simp
  | cons a t ih =>
    simp only [List.map_cons, List.sum_cons, ih, List.length_cons]
    push_cast
    ring

theorem mean_centered (l : List ℝ) : mean (centered l) = 0 := by
  unfold centered mean
  rw [List.length_map, list_sum_map_sub]
  by_cases h : (l.length : ℝ) = 0
  · rw [h]
    simp
  · have hm : (l.length : ℝ) * (l.sum / (l.length : ℝ)) = l.sum := by
      rw [mul_comm, div_mul_cancel₀ _ h]
    rw [hm, sub_self, zero_div]

theorem list_sum_map_div (l : List ℝ) (f : ℝ → ℝ) (c : ℝ) :
    (l.map (fun x => f x / c)).sum = (l.map f).sum / c := by
  induction l with
  | nil => simp
  | cons a t ih => simp [ih, add_div]

theorem mean_map_div (l : List ℝ) (c : ℝ) :
    mean (l.map (fun x => x / c)) = mean l / c := by
  unfold mean
  rw [List.length_map,
    show l.map (fun x => x / c) = l.map (fun x => id x / c) from rfl,
    list_sum_map_div, List.map_id, div_right_comm]

theorem variance_map_div (l : List ℝ) (c : ℝ) :
    variance (l.map (fun x => x / c)) = variance l / c ^ 2 := by
  unfold variance
  rw [List.length_map, mean_map_div, List.map_map]
  have hfun : ((fun x => (x - mean l / c) ^ 2) ∘ fun x => x / c)
      = fun x => ((x - mean l) ^ 2) / c ^ 2 := by
    funext x
    simp only [Function.comp]
    rw [div_sub_div_same, div_pow]
  rw [hfun, list_sum_map_div l (fun x => (x - mean l) ^ 2) (c ^ 2),
    div_right_comm]

theorem variance_nonneg (l : List ℝ) : 0 ≤ variance l := by
  unfold variance
  apply div_nonneg
  · apply List.sum_nonneg
    intro x hx
    rcases List.mem_map.mp hx with ⟨y, _, rfl⟩
    exact sq_nonneg _
  · exact Nat.cast_nonneg _

/-- C2 (amended): for every β and every even `N > 0`, `generate_colored`
applied to a length-`N` white draw returns exactly `N` samples with mean
exactly 0, and either the output has variance exactly 1, or the standard
deviation of the shaped signal was at or below the `1e-10` guard and
normalization was skipped (output equals the merely centered signal).
The evenness restriction is forced by `np.fft.irfft`: see the
counterexample for odd `N`. -/
theorem C2_colored_generator (beta N : ℕ) (fs : ℝ) (white : List ℝ)
    (hlen : white.length = N) (heven : N % 2 = 0) (hpos : 0 < N) :
    (generate_colored beta N fs white).length = N ∧
      mean (generate_colored beta N fs white) = 0 ∧
      (variance (generate_colored beta N fs white) = 1 ∨
        (std (centered (shapedSignal beta N fs white)) ≤ 1e-10 ∧
          generate_colored beta N fs white
            = centered (shapedSignal beta N fs white))) := by
  have hNlen : 2 * (numBins N - 1) = N := by
    unfold numBins
    omega
  refine ⟨?_, ?_, ?_⟩
  · rw [generate_colored_length beta N fs white hlen, hNlen]
  · unfold generate_colored normalizeGuard
    split
    · rw [mean_map_div, mean_centered, zero_div]
    · exact mean_centered _
  · unfold generate_colored normalizeGuard
    split
    · next hstd =>
      left
      set y := centered (shapedSignal beta N fs white) with hy
      have h0 : (0 : ℝ) < std y := lt_trans (by norm_num) hstd
      have h2 : std y ^ 2 = variance y := Real.sq_sqrt (variance_nonneg y)
      have hvpos : 0 < variance y := h2 ▸ pow_pos h0 2
      rw [variance_map_div, h2]
      exact div_self (ne_of_gt hvpos)
    · next hstd =>
      right
      exact ⟨not_lt.mp hstd, rfl⟩

/-- C2 (witness): the amended statement at β = 0, N = 2,
white draw `[1, -1]`. -/
theorem C2_colored_generator_witness :
    (generate_colored 0 2 44100 [1, -1]).length = 2 ∧
      mean (generate_colored 0 2 44100 [1, -1]) = 0 ∧
      (variance (generate_colored 0 2 44100 [1, -1]) = 1 ∨
        (std (centered (shapedSignal 0 2 44100 [1, -1])) ≤ 1e-10 ∧
          generate_colored 0 2 44100 [1, -1]
            = centered (shapedSignal 0 2 44100 [1, -1]))) :=
  C2_colored_generator 0 2 44100 [1, -1] rfl (by decide) (by decide)

/-- C2 (counterexample): for the odd size `N = 3` the generator returns 2
samples, not 3 — `np.fft.rfft` keeps `3 // 2 + 1 = 2` bins and
`np.fft.irfft` reconstructs `2·(2−1) = 2` samples — refuting the claim that
the output has exactly length `N` for every `N > 0`. -/
theorem C2_counterexample :
    (generate_colored 0 3 44100 [1, 0, 0]).length = 2 ∧
      (generate_colored 0 3 44100 [1, 0, 0]).length ≠ 3 := by
  have h := generate_colored_length 0 3 44100 [1, 0, 0] rfl
  constructor
  · rw [h]
    decide
  · rw [h]
    decide

end TinnitusTamer
